import Mathlib

/-!
Verification of the netBlinBot pipeline core (netblin_cli).

The Python sources are embedded shallowly:
* JSON values (`json.loads` results) become the inductive `JVal`;
* Python floats become `ℚ` (the source only adds, subtracts, multiplies
  and divides timing values, so rational arithmetic is exact);
* raising code returns `Except PyExc _`, with the exception classes that
  the source distinguishes (`json.JSONDecodeError`, `ValueError`,
  `TypeError`, `AttributeError`) as constructors;
* strings are manipulated as `List Char` where the source slices them.
-/

namespace NetBlin

/-- Python exception classes that the embedded code can raise or catch.
`ollama_client.process_transcript` catches `(json.JSONDecodeError, ValueError)`;
`TypeError` (e.g. `float(None)`, iterating a number) and `AttributeError`
(`item.get` on a non-dict) are not caught there. -/
inductive PyExc where
  | jsonDecodeError
  | valueError
  | typeError
  | attributeError
deriving DecidableEq, Repr

/-- A decoded JSON value, the result type of `json.loads`. -/
inductive JVal where
  | jnull
  | jbool (b : Bool)
  | jnum (q : ℚ)
  | jstr (s : String)
  | jarr (elems : List JVal)
  | jobj (fields : List (String × JVal))

/-- Fold a digit list into a natural number (helper for `parseFloat`). -/
def digitsToNat (ds : List Char) : ℕ :=
  ds.foldl (fun a c => a * 10 + (c.toNat - 48)) 0

/-- Numeric-string conversion: the subset of Python `float(str)` used by the
pipeline — optional sign, decimal digits, optional fractional part, surrounding
whitespace stripped (exponent/inf/nan forms are not modelled; none occur in the
timing strings the code converts). `none` models `float` raising `ValueError`. -/
def parseFloat (s : String) : Option ℚ :=
  let l := ((s.data.dropWhile Char.isWhitespace).reverse.dropWhile Char.isWhitespace).reverse
  let (sign, body) :=
    match l with
    | '-' :: rest => ((-1 : ℚ), rest)
    | '+' :: rest => ((1 : ℚ), rest)
    | _ => ((1 : ℚ), l)
  let intPart := body.takeWhile Char.isDigit
  let rest := body.dropWhile Char.isDigit
  match rest with
  | [] =>
      if intPart.isEmpty then none
      else some (sign * digitsToNat intPart)
  | '.' :: fracAll =>
      let frac := fracAll.takeWhile Char.isDigit
      if fracAll.dropWhile Char.isDigit ≠ [] then none
      else if intPart.isEmpty ∧ frac.isEmpty then none
      else some (sign * ((digitsToNat intPart : ℚ) +
        (digitsToNat frac : ℚ) / (10 : ℚ) ^ frac.length))
  | _ => none

/-- Python `float(x)` on a decoded JSON value: numbers convert to themselves,
booleans to 0/1, numeric strings parse (`ValueError` otherwise), `None`, lists
and dicts raise `TypeError`. -/
def pyFloat : JVal → Except PyExc ℚ
  | .jnum q => .ok q
  | .jbool b => .ok (if b then 1 else 0)
  | .jstr s =>
      match parseFloat s with
      | some q => .ok q
      | none => .error .valueError
  | .jnull => .error .typeError
  | .jarr _ => .error .typeError
  | .jobj _ => .error .typeError

/-- `dict.get(key, default)` on a decoded JSON object; `json.loads` keeps the
last occurrence of a duplicated key, hence the reversed search. -/
def jobjGet (fields : List (String × JVal)) (key : String) (dflt : JVal) : JVal :=
  match fields.reverse.find? (fun p => p.1 = key) with
  | some p => p.2
  | none => dflt

/-- Python `x == ""` for a decoded JSON value: true exactly on the empty string. -/
def isEmptyStr : JVal → Bool
  | .jstr s => s = ""
  | _ => false

/-- One rephrase record: `ollama_client.Segment` (dataclass, lines 13–19).
`original`/`antonym` keep whatever JSON value `item.get` returned, as the
source performs no conversion on them. -/
structure Segment where
  original : JVal
  antonym : JVal
  start : ℚ
  stop : ℚ

/-- The body of the inner `for item in data` loop of
`OllamaClient.process_transcript` (lines 94–106): read `start`/`end` with
`""` default, skip the element (`.ok none`) if either is `""`/absent,
otherwise build the `Segment` via `float(...)`; `item.get` on a non-dict
raises `AttributeError`. -/
def projectItem (item : JVal) : Except PyExc (Option Segment) :=
  match item with
  | .jobj fields =>
      let startVal := jobjGet fields "start" (.jstr "")
      let endVal := jobjGet fields "end" (.jstr "")
      if isEmptyStr startVal ∨ isEmptyStr endVal then .ok none
      else
        match pyFloat startVal with
        | .error e => .error e
        | .ok s =>
            match pyFloat endVal with
            | .error e => .error e
            | .ok e' =>
                .ok (some { original := jobjGet fields "original" (.jstr "")
                            antonym := jobjGet fields "antonym" (.jstr "")
                            start := s
                            stop := e' })
  | _ => .error .attributeError

/-- Python iteration `for item in data` over a decoded JSON value: a list
yields its elements, a dict its keys, a string its characters (as 1-char
strings); numbers, booleans and `None` raise `TypeError`. -/
def pyIter : JVal → Except PyExc (List JVal)
  | .jarr elems => .ok elems
  | .jobj fields => .ok (fields.map (fun p => .jstr p.1))
  | .jstr s => .ok (s.data.map (fun c => .jstr (String.mk [c])))
  | .jnum _ => .error .typeError
  | .jbool _ => .error .typeError
  | .jnull => .error .typeError

/-- Run the projection loop over the items of one chunk, mutating
`all_segments` as the source does: the returned list is what was appended
before the loop finished or an exception escaped it; the `Option PyExc` is
the escaping exception, if any. -/
def projectLoop : List JVal → List Segment × Option PyExc
  | [] => ([], none)
  | item :: rest =>
      match projectItem item with
      | .error e => ([], some e)
      | .ok none => projectLoop rest
      | .ok (some seg) =>
          let (segs, exc) := projectLoop rest
          (seg :: segs, exc)

/-- Process one chunk given the outcome of `_parse_response` on its response
(lines 92–106): a parse failure or a failed iteration contributes the pending
exception; otherwise the projection loop runs and may itself stop on an
exception, keeping the records appended before it. -/
def processChunkResult (parsed : Except PyExc JVal) : List Segment × Option PyExc :=
  match parsed with
  | .error e => ([], some e)
  | .ok v =>
      match pyIter v with
      | .error e => ([], some e)
      | .ok items => projectLoop items

/-- The exception classes caught by the `except (json.JSONDecodeError,
ValueError)` clause at line 107. -/
def caughtExc (e : PyExc) : Bool :=
  e = .jsonDecodeError ∨ e = .valueError

/-- The records a chunk contributes when its pending exception (if any) is
caught — the prefix appended before the exception, the whole projection
otherwise. -/
def chunkRecords (parsed : Except PyExc JVal) : List Segment :=
  (processChunkResult parsed).1

/-- True when processing the chunk raises no exception, or only one of the
classes caught at line 107. -/
def pendingCaught (parsed : Except PyExc JVal) : Bool :=
  match (processChunkResult parsed).2 with
  | none => true
  | some e => caughtExc e

/-- The chunk loop of `OllamaClient.process_transcript` (lines 83–115),
taken from the point where each chunk's response has gone through
`_parse_response` (which returns a JSON value or raises
`json.JSONDecodeError`): accumulate each chunk's records; a caught exception
skips to the next chunk keeping what was already appended; any other
exception propagates; after the loop, an empty accumulator raises the
`ValueError("Не удалось получить ни одного сегмента от LLM")` —
the `NoUsableRephrasesError`. -/
def processChunks (acc : List Segment) : List (Except PyExc JVal) → Except PyExc (List Segment)
  | [] => if acc.isEmpty then .error .valueError else .ok acc
  | parsed :: rest =>
      match (processChunkResult parsed).2 with
      | none => processChunks (acc ++ (processChunkResult parsed).1) rest
      | some e =>
          if caughtExc e then processChunks (acc ++ (processChunkResult parsed).1) rest
          else .error e

/-- `OllamaClient.process_transcript`, as a function of the per-chunk parsed
responses. -/
def process_transcript (responses : List (Except PyExc JVal)) : Except PyExc (List Segment) :=
  processChunks [] responses

/-- Splitting the word list into consecutive chunks of `chunk_size = 50`
(lines 80, 83–84): `words[i:i+chunk_size]` for `i in range(0, len(words),
chunk_size)`. -/
def chunksOf (size : ℕ) (l : List α) : List (List α) :=
  (List.range ((l.length + size - 1) / size)).map
    (fun i => (l.drop (i * size)).take size)

/-! ### `OllamaClient._parse_response` — response recovery (lines 55–71) -/

/-- Python `str.strip()` on a character list: whitespace removed from both
ends. -/
def stripL (l : List Char) : List Char :=
  ((l.dropWhile Char.isWhitespace).reverse.dropWhile Char.isWhitespace).reverse

/-- The backquote character (U+0060). -/
def backquote : Char := Char.ofNat 96

/-- The three-backquote fence marker. -/
def fenceMarker : List Char := [backquote, backquote, backquote]

/-- Python `str.split(sep)` for a single-character separator: fields between
separators, empty fields kept. -/
def splitSep (sep : Char) : List Char → List (List Char)
  | [] => [[]]
  | c :: rest =>
      match splitSep sep rest with
      | [] => [[c]]
      | f :: fs => if c = sep then [] :: f :: fs else (c :: f) :: fs

/-- Python `sep.join(fields)` for a single-character separator. -/
def joinSep (sep : Char) : List (List Char) → List Char
  | [] => []
  | [x] => x
  | x :: xs => x ++ sep :: joinSep sep xs

/-- The markdown-fence removal of `_parse_response` (lines 60–62): if the
stripped response starts with three backquotes, split it into lines and drop
the first line, and also the last when it is exactly three backquotes, then
rejoin with newlines. -/
def removeFences (l : List Char) : List Char :=
  if fenceMarker.isPrefixOf l then
    let lines := splitSep '\n' l
    joinSep '\n'
      (if lines.getLast? = some fenceMarker then (lines.drop 1).dropLast
       else lines.drop 1)
  else l

/-- The bracket slicing of `_parse_response` (lines 64–69): when both a `[`
and a `]` occur, keep exactly the substring from the first `[` to the last
`]` inclusive (Python `response[start_idx:end_idx + 1]`, which is empty when
the last `]` precedes the first `[`). -/
def sliceBrackets (l : List Char) : List Char :=
  if '[' ∈ l ∧ ']' ∈ l then
    ((l.dropWhile (fun c => ¬ c = '[')).reverse.dropWhile (fun c => ¬ c = ']')).reverse
  else l

/-- The text transformation performed by `_parse_response` before
`json.loads`: strip, remove fences, slice to the bracketed array. -/
def preprocessResponse (l : List Char) : List Char :=
  sliceBrackets (removeFences (stripL l))

/-- `OllamaClient._parse_response`, parameterised by the `json.loads`
parser (an external library routine): it parses exactly the preprocessed
text. -/
def parse_response (loads : List Char → Except PyExc JVal)
    (response : String) : Except PyExc JVal :=
  loads (preprocessResponse response.data)

/-! ### `Transcriber.transcribe` — word timing interpolation (lines 98–127) -/

/-- `transcriber.Word` (lines 17–22): a word with timecodes in seconds. -/
structure Word where
  text : List Char
  start : ℚ
  stop : ℚ

/-- Python `str.split()` (no argument): split on whitespace runs, dropping
empty fields; `acc` accumulates the current token reversed. -/
def splitWsGo (acc : List Char) : List Char → List (List Char)
  | [] => if acc.isEmpty then [] else [acc.reverse]
  | c :: rest =>
      if c.isWhitespace then
        if acc.isEmpty then splitWsGo [] rest
        else acc.reverse :: splitWsGo [] rest
      else splitWsGo (c :: acc) rest

/-- Python `str.split()` with no separator argument. -/
def splitWs (l : List Char) : List (List Char) :=
  splitWsGo [] l

/-- The uniform time interpolation of `Transcriber.transcribe`
(lines 115–127): split the segment text into whitespace tokens; with the
segment offsets in milliseconds, give token `i` the span
`[start_ms + i·d/N, start_ms + (i+1)·d/N]` where `d = end_ms - start_ms`
and `N` is the token count, converting to seconds by dividing by 1000. -/
def interpolateWords (text : List Char) (startMs endMs : ℚ) : List Word :=
  let tokens := splitWs text
  if tokens.isEmpty then []
  else
    let duration := endMs - startMs
    let wordDuration := duration / (tokens.length : ℚ)
    tokens.enum.map (fun p =>
      { text := p.2
        start := (startMs + (p.1 : ℚ) * wordDuration) / 1000
        stop := (startMs + ((p.1 : ℚ) + 1) * wordDuration) / 1000 })

/-- A raw whisper.cpp transcription segment: text plus millisecond offsets
(`offsets.from` / `offsets.to`, lines 110–112). -/
structure RawSeg where
  text : List Char
  fromMs : ℚ
  toMs : ℚ

/-- The segment loop of `Transcriber.transcribe` (lines 103–127): strip each
segment's text, skip empty segments, interpolate word timings. -/
def transcribe_words (segs : List RawSeg) : List Word :=
  segs.flatMap (fun s =>
    let t := stripL s.text
    if t.isEmpty then [] else interpolateWords t s.fromMs s.toMs)

/-! ### `video_processor.VideoInfo` and the reaction-clip geometry -/

/-- `video_processor.VideoInfo` (lines 14–28). -/
structure VideoInfo where
  width : ℤ
  height : ℤ
  duration : ℚ
  fps : ℚ

/-- `VideoInfo.is_vertical` (lines 22–24). -/
def VideoInfo.is_vertical (v : VideoInfo) : Bool :=
  v.height > v.width

/-- `VideoInfo.is_horizontal` (lines 26–28). -/
def VideoInfo.is_horizontal (v : VideoInfo) : Bool :=
  v.width > v.height

/-- The two filter pairs `create_reaction_clip` can emit (lines 135–142):
`pillarbox` is `scale=-1:h` + `pad=w:h:(ow-iw)/2:0`, `letterbox` is
`scale=w:-1` + `pad=w:h:0:(oh-ih)/2`. -/
inductive FitMode where
  | pillarbox
  | letterbox
deriving DecidableEq, Repr

/-- The branch chosen at line 135: pillarbox when `is_horizontal`, letterbox
otherwise. -/
def reactionFitMode (vi : VideoInfo) : FitMode :=
  if vi.is_horizontal then .pillarbox else .letterbox

/-- Pixel dimensions of a still image, as exact rationals. -/
structure ImageDim where
  w : ℚ
  h : ℚ

/-- Modelled from the spec: the media-transcoding collaborator (FFmpeg) is
out of scope; per the spec's §4.4, `scale=-1:H` scales the image preserving
aspect ratio so its height equals `H`, and `scale=W:-1` so its width equals
`W`. -/
def applyScale (mode : FitMode) (vi : VideoInfo) (img : ImageDim) : ImageDim :=
  match mode with
  | .pillarbox => { w := img.w * (vi.height : ℚ) / img.h, h := (vi.height : ℚ) }
  | .letterbox => { w := (vi.width : ℚ), h := img.h * (vi.width : ℚ) / img.w }

/-- The canvas produced by the `pad` filter: output size and the offset of
the scaled image on it. -/
structure PadSpec where
  outW : ℚ
  outH : ℚ
  offX : ℚ
  offY : ℚ

/-- Modelled from the spec: `pad=W:H:x:y` places the scaled image at offset
`(x, y)` on a `W×H` canvas. The offsets are those of lines 138 and 142 with
`ow = W`, `oh = H`, `iw`/`ih` the scaled image size. -/
def applyPad (mode : FitMode) (vi : VideoInfo) (scaled : ImageDim) : PadSpec :=
  match mode with
  | .pillarbox =>
      { outW := (vi.width : ℚ), outH := (vi.height : ℚ)
        offX := ((vi.width : ℚ) - scaled.w) / 2, offY := 0 }
  | .letterbox =>
      { outW := (vi.width : ℚ), outH := (vi.height : ℚ)
        offX := 0, offY := ((vi.height : ℚ) - scaled.h) / 2 }

/-- The composite specification assembled by `create_reaction_clip` for the
transcoder call: the `-t` duration limit (line 169), the fit branch, and the
font size `min(w, h) // 10` (line 152, Python floor division). -/
structure ReactionClipSpec where
  durationLimit : ℚ
  fitMode : FitMode
  fontsize : ℤ

/-- `VideoProcessor.create_reaction_clip` (lines 110–181), up to the
transcoder invocation, as a function of the duration-probe output: strip the
probe's stdout; if it is empty raise
`ValueError("Не удалось получить длительность аудио: ...")`;
otherwise convert it with `float` (`ValueError` on garbage) and build the
composite spec whose output duration is that audio duration. -/
def create_reaction_clip (probeOut : String) (vi : VideoInfo) :
    Except PyExc ReactionClipSpec :=
  let durationStr := stripL probeOut.data
  if durationStr.isEmpty then .error .valueError
  else
    match parseFloat (String.mk durationStr) with
    | none => .error .valueError
    | some d =>
        .ok { durationLimit := d
              fitMode := reactionFitMode vi
              fontsize := Int.fdiv (min vi.width vi.height) 10 }

/-! ### `Pipeline.run` — clip plan and stage sequencing -/

/-- One render instruction of the assembly loop (lines 143–166). -/
inductive ClipInstruction (α : Type) where
  | cutOriginal (start stop : ℚ)
  | renderReaction (text : JVal) (audioRef : α) (geometry : VideoInfo)

/-- The clip-assembly loop of `Pipeline.run` (lines 143–166): for each
segment `i` in order, skip it when `start ≤ 0 and end ≤ 0`; otherwise cut
the original at its timecodes and render the reaction from its antonym and
`audio_files[i]`. -/
def buildPlan (segs : List Segment) (audioRefs : ℕ → α) (geo : VideoInfo) :
    List (ClipInstruction α) :=
  segs.enum.flatMap (fun p =>
    if p.2.start ≤ 0 ∧ p.2.stop ≤ 0 then []
    else [.cutOriginal p.2.start p.2.stop,
          .renderReaction p.2.antonym (audioRefs p.1) geo])

/-- Run a list of stage outcomes in order, counting the stages entered:
stops at the first failing stage, reporting the exception and how many
stages ran (the failing one included). -/
def runStages (executed : ℕ) : List (Except E Unit) → Except (E × ℕ) ℕ
  | [] => .ok executed
  | .ok _ :: rest => runStages (executed + 1) rest
  | .error e :: _ => .error (e, executed + 1)

/-- Outcome of one `Pipeline.run`: the propagated result (`.ok true` =
output produced, `.ok false` = the dry-run `return None`), how many stages
after the health check were entered, and whether
`video_processor.cleanup()` was called. -/
structure RunOutcome (E : Type) where
  result : Except E Bool
  stagesRun : ℕ
  cleaned : Bool

/-- The `try`/`except` body of `Pipeline.run` (lines 70–191), as a function
of the outcomes of the stages before the dry-run exit (`pre`: video inspect,
audio extract, transcribe, rephrase) and after it (`post`: TTS, assembly,
concat): any exception propagates after cleanup unless `keep_temp`; the
dry-run path returns `None` with no cleanup (line 106–108); full success
cleans up unless `keep_temp` (lines 178–180). -/
def pipeline_run (pre post : List (Except E Unit)) (dryRun keepTemp : Bool) :
    RunOutcome E :=
  match runStages 0 pre with
  | .error (e, n) => { result := .error e, stagesRun := n, cleaned := !keepTemp }
  | .ok n =>
      if dryRun then { result := .ok false, stagesRun := n, cleaned := false }
      else
        match runStages 0 post with
        | .error (e, m) =>
            { result := .error e, stagesRun := n + m, cleaned := !keepTemp }
        | .ok m =>
            { result := .ok true, stagesRun := n + m, cleaned := !keepTemp }

/-! ### Concrete values used in counterexamples and witnesses -/

/-- A well-formed response element with numeric timecodes. -/
def gooditem : JVal :=
  .jobj [("original", .jstr "a"), ("antonym", .jstr "b"), ("start", .jnum 1), ("end", .jnum 2)]

/-- A second well-formed response element. -/
def gooditem2 : JVal :=
  .jobj [("original", .jstr "c"), ("antonym", .jstr "d"), ("start", .jnum 3), ("end", .jnum 4)]

/-- An element whose `start` is a non-numeric string: `float("x")` raises
`ValueError` during projection. -/
def baditem : JVal :=
  .jobj [("start", .jstr "x"), ("end", .jnum 2)]

/-- The segment projected from `gooditem`. -/
def segA : Segment := ⟨.jstr "a", .jstr "b", 1, 2⟩

/-- The segment projected from `gooditem2`. -/
def segC : Segment := ⟨.jstr "c", .jstr "d", 3, 4⟩

/-! ## Helper lemmas -/

/-- Dropping while a predicate holds stops at the first element refuting it,
wherever that element sits in an append. -/
theorem dropWhile_append_cons {α : Type} (q : α → Bool) (l1 : List α) (x : α) (l2 : List α)
    (hx : q x = false) :
    (l1 ++ x :: l2).dropWhile q = l1.dropWhile q ++ x :: l2 := by
  induction l1 with
  | nil => simp [List.dropWhile_cons, hx]
  | cons c t ih => by_cases hc : q c <;> simp [List.dropWhile_cons, hc, ih]

/-- `splitSep` never returns an empty field list. -/
theorem splitSep_ne_nil (sep : Char) (l : List Char) : splitSep sep l ≠ [] := by
  cases l with
  | nil => simp [splitSep]
  | cons c rest =>
      simp only [splitSep]
      cases splitSep sep rest with
      | nil => simp
      | cons f fs => by_cases hc : c = sep <;> simp [hc]

/-- Splitting a separator-free list yields the one-field list. -/
theorem splitSep_no_sep (sep : Char) (l : List Char) (h : ∀ c ∈ l, c ≠ sep) :
    splitSep sep l = [l] := by
  induction l with
  | nil => rfl
  | cons c rest ih =>
      simp only [splitSep, ih (fun x hx => h x (List.mem_cons_of_mem c hx))]
      rw [if_neg (h c (List.mem_cons_self c rest))]

/-- `splitSep` distributes over an interior separator. -/
theorem splitSep_append (sep : Char) (x y : List Char) :
    splitSep sep (x ++ sep :: y) = splitSep sep x ++ splitSep sep y := by
  induction x with
  | nil =>
      cases hsp : splitSep sep y with
      | nil => exact absurd hsp (splitSep_ne_nil sep y)
      | cons f fs => simp [splitSep, hsp]
  | cons c t ih =>
      simp only [List.cons_append, splitSep, List.append_eq]
      rw [ih]
      cases hsp : splitSep sep t with
      | nil => exact absurd hsp (splitSep_ne_nil sep t)
      | cons f fs => by_cases hc : c = sep <;> simp [hc]

/-- Joining the fields of a split restores the original list. -/
theorem joinSep_splitSep (sep : Char) (l : List Char) :
    joinSep sep (splitSep sep l) = l := by
  induction l with
  | nil => rfl
  | cons c t ih =>
      cases hsp : splitSep sep t with
      | nil => exact absurd hsp (splitSep_ne_nil sep t)
      | cons f fs =>
          rw [hsp] at ih
          by_cases hc : c = sep
          · simp only [splitSep, hsp, if_pos hc]
            show ([] : List Char) ++ sep :: joinSep sep (f :: fs) = c :: t
            rw [List.nil_append, ih, hc]
          · simp only [splitSep, hsp, if_neg hc]
            cases fs with
            | nil =>
                show c :: f = c :: t
                have hjf : joinSep sep [f] = f := rfl
                rw [hjf] at ih
                rw [ih]
            | cons g gs =>
                show (c :: f) ++ sep :: joinSep sep (g :: gs) = c :: t
                rw [← ih]
                rfl

/-- Bracket slicing recovers exactly the bracketed body from a response whose
prefix holds no `[` and whose suffix holds no `]`. -/
theorem sliceBrackets_wrapped (t u p1 s1 : List Char) (hb : '[' :: t = u ++ [']'])
    (hp1 : ∀ c ∈ p1, c ≠ '[') (hs1 : ∀ c ∈ s1, c ≠ ']') :
    sliceBrackets (p1 ++ ('[' :: t) ++ s1) = '[' :: t := by
  have hcond : '[' ∈ p1 ++ ('[' :: t) ++ s1 ∧ ']' ∈ p1 ++ ('[' :: t) ++ s1 := by
    constructor
    · simp
    · have hmem : ']' ∈ '[' :: t := by rw [hb]; simp
      have ht : ']' ∈ t := by
        rcases List.mem_cons.mp hmem with h | h
        · exact absurd h (by decide)
        · exact h
      simp [ht]
  unfold sliceBrackets
  rw [if_pos hcond]
  have e1 : (p1 ++ ('[' :: t) ++ s1).dropWhile (fun c => decide ¬(c = '[')) =
      '[' :: (t ++ s1) := by
    rw [List.append_assoc, List.cons_append]
    rw [dropWhile_append_cons _ p1 '[' (t ++ s1) (by decide)]
    rw [List.dropWhile_eq_nil_iff.mpr (fun c hc => decide_eq_true (hp1 c hc)),
      List.nil_append]
  rw [e1]
  have hshape : '[' :: (t ++ s1) = u ++ ']' :: s1 := by
    have : '[' :: (t ++ s1) = ('[' :: t) ++ s1 := rfl
    rw [this, hb, List.append_assoc, List.singleton_append]
  rw [hshape, List.reverse_append, List.reverse_cons, List.append_assoc,
    List.singleton_append]
  rw [dropWhile_append_cons _ _ ']' u.reverse (by decide)]
  rw [List.dropWhile_eq_nil_iff.mpr
    (fun c hc => decide_eq_true (hs1 c (List.mem_reverse.mp hc))), List.nil_append]
  rw [List.reverse_cons, List.reverse_reverse, hb]

/-- Stripping a wrapped response trims only the ends of the prefix and
suffix, never touching the bracketed body. -/
theorem stripL_wrapped (p t u s : List Char) (hb : '[' :: t = u ++ [']']) :
    stripL (p ++ ('[' :: t) ++ s) =
      (p.dropWhile Char.isWhitespace) ++ ('[' :: t) ++
        (s.reverse.dropWhile Char.isWhitespace).reverse := by
  unfold stripL
  have h1 : (p ++ ('[' :: t) ++ s).dropWhile Char.isWhitespace =
      p.dropWhile Char.isWhitespace ++ ('[' :: t) ++ s := by
    rw [List.append_assoc, List.cons_append]
    rw [dropWhile_append_cons _ p '[' (t ++ s) (by decide)]
    rw [← List.cons_append, ← List.append_assoc]
  rw [h1]
  have hshape : p.dropWhile Char.isWhitespace ++ ('[' :: t) ++ s =
      (p.dropWhile Char.isWhitespace ++ u) ++ ']' :: s := by
    rw [List.append_assoc (p.dropWhile Char.isWhitespace), hb,
      List.append_assoc u, List.singleton_append, ← List.append_assoc]
  rw [hshape, List.reverse_append, List.reverse_cons, List.append_assoc,
    List.singleton_append]
  rw [dropWhile_append_cons _ s.reverse ']'
    ((p.dropWhile Char.isWhitespace ++ u).reverse) (by decide)]
  have hkey : ∀ S : List Char, ('[' : Char) :: (t ++ S) = u ++ ']' :: S := by
    intro S
    have h3 : ('[' : Char) :: (t ++ S) = ('[' :: t) ++ S := rfl
    rw [h3, hb, List.append_assoc, List.singleton_append]
  simp only [List.reverse_append, List.reverse_cons, List.reverse_reverse,
    List.append_assoc, List.singleton_append, List.cons_append, List.nil_append]
  rw [← hkey ((List.dropWhile Char.isWhitespace s.reverse).reverse)]

/-- The full recovery transformation on a non-fenced wrapped response. -/
theorem preprocessResponse_wrapped (p t u s : List Char) (hb : '[' :: t = u ++ [']'])
    (hp : ∀ c ∈ p, c ≠ '[') (hs : ∀ c ∈ s, c ≠ ']')
    (hfence : fenceMarker.isPrefixOf (stripL (p ++ ('[' :: t) ++ s)) = false) :
    preprocessResponse (p ++ ('[' :: t) ++ s) = '[' :: t := by
  unfold preprocessResponse
  rw [stripL_wrapped p t u s hb] at hfence ⊢
  rw [removeFences, if_neg ?hnf]
  case hnf =>
    intro hcontra
    have hx : fenceMarker.isPrefixOf (List.dropWhile Char.isWhitespace p ++ '[' :: t ++
        (List.dropWhile Char.isWhitespace s.reverse).reverse) = true := by
      rw [List.isPrefixOf_iff_prefix]
      simpa [List.append_assoc] using hcontra
    rw [hfence] at hx
    cases hx
  exact sliceBrackets_wrapped t u _ _ hb
    (fun c hc => hp c ((List.dropWhile_sublist Char.isWhitespace).subset hc))
    (fun c hc => hs c (List.mem_reverse.mp
      ((List.dropWhile_sublist Char.isWhitespace).subset (List.mem_reverse.mp hc))))

/-- `dropWhile` is the identity on a list opening with the fence marker when
the predicate refutes the backquote. -/
theorem dropWhile_fence_front (q : Char → Bool) (hq : q backquote = false) (Y : List Char) :
    (fenceMarker ++ Y).dropWhile q = fenceMarker ++ Y := by
  simp [fenceMarker, List.dropWhile_cons, hq]

/-- Stripping is the identity on a fence-delimited response. -/
theorem stripL_fenced (A : List Char) :
    stripL (fenceMarker ++ A ++ fenceMarker) = fenceMarker ++ A ++ fenceMarker := by
  unfold stripL
  have h1 : (fenceMarker ++ A ++ fenceMarker).dropWhile Char.isWhitespace =
      fenceMarker ++ A ++ fenceMarker := by
    rw [List.append_assoc]
    rw [dropWhile_fence_front Char.isWhitespace (by decide) (A ++ fenceMarker)]
  rw [h1]
  have h2 : (fenceMarker ++ A ++ fenceMarker).reverse =
      fenceMarker ++ (A.reverse ++ fenceMarker) := by
    rw [List.reverse_append, List.reverse_append]
    rw [show fenceMarker.reverse = fenceMarker from rfl]
  rw [h2, dropWhile_fence_front Char.isWhitespace (by decide) (A.reverse ++ fenceMarker), ← h2,
    List.reverse_reverse]

/-- The full recovery transformation on a fenced response: the fence lines
are removed and the body is returned unchanged. -/
theorem preprocessResponse_fenced (t u info : List Char) (hb : '[' :: t = u ++ [']'])
    (hinfo : ∀ c ∈ info, c ≠ '\n') :
    preprocessResponse (fenceMarker ++ info ++ '\n' :: ('[' :: t) ++ '\n' :: fenceMarker) =
      '[' :: t := by
  have hno2 : ∀ c ∈ fenceMarker, c ≠ '\n' := by
    intro c hc
    simp only [fenceMarker, List.mem_cons, List.not_mem_nil, or_false] at hc
    rcases hc with h | h | h <;> (subst h; decide)
  have hno1 : ∀ c ∈ fenceMarker ++ info, c ≠ '\n' := by
    intro c hc
    rcases List.mem_append.mp hc with h | h
    · exact hno2 c h
    · exact hinfo c h
  have hshape : fenceMarker ++ info ++ '\n' :: ('[' :: t) ++ '\n' :: fenceMarker =
      fenceMarker ++ (info ++ '\n' :: (('[' :: t) ++ ['\n'])) ++ fenceMarker := by
    simp [List.append_assoc]
  have hsplit_shape : fenceMarker ++ (info ++ '\n' :: (('[' :: t) ++ ['\n'])) ++ fenceMarker =
      (fenceMarker ++ info) ++ '\n' :: (('[' :: t) ++ '\n' :: fenceMarker) := by
    simp [List.append_assoc]
  have hlines : splitSep '\n'
      (fenceMarker ++ (info ++ '\n' :: (('[' :: t) ++ ['\n'])) ++ fenceMarker) =
      (fenceMarker ++ info) :: (splitSep '\n' ('[' :: t) ++ [fenceMarker]) := by
    rw [hsplit_shape, splitSep_append]
    rw [splitSep_no_sep '\n' (fenceMarker ++ info) hno1]
    rw [splitSep_append, splitSep_no_sep '\n' fenceMarker hno2]
    rw [List.singleton_append]
  unfold preprocessResponse
  rw [hshape, stripL_fenced]
  simp only [removeFences]
  rw [if_pos ?hpre]
  case hpre =>
    rw [List.isPrefixOf_iff_prefix, List.append_assoc]
    exact List.prefix_append _ _
  rw [hlines]
  rw [if_pos ?hlast]
  case hlast =>
    rw [show (fenceMarker ++ info) :: (splitSep '\n' ('[' :: t) ++ [fenceMarker]) =
        ((fenceMarker ++ info) :: splitSep '\n' ('[' :: t)) ++ [fenceMarker] from by simp]
    exact List.getLast?_concat _
  rw [show ((fenceMarker ++ info) :: (splitSep '\n' ('[' :: t) ++ [fenceMarker])).drop 1 =
      splitSep '\n' ('[' :: t) ++ [fenceMarker] from rfl]
  rw [List.dropLast_concat]
  rw [joinSep_splitSep]
  have hsl := sliceBrackets_wrapped t u [] [] hb (by simp) (by simp)
  simpa using hsl

/-- When every chunk's pending exception is of a caught class, the chunk loop
accumulates each chunk's recovered records, then fails exactly on an empty
accumulation. -/
theorem processChunks_all_caught (responses : List (Except PyExc JVal))
    (h : responses.all pendingCaught = true) (acc : List Segment) :
    processChunks acc responses =
      if (acc ++ (responses.map chunkRecords).flatten).isEmpty then .error .valueError
      else .ok (acc ++ (responses.map chunkRecords).flatten) := by
  induction responses generalizing acc with
  | nil =>
      unfold processChunks
      simp only [List.map_nil, List.flatten_nil, List.append_nil]
  | cons r rest ih =>
      rw [List.all_cons, Bool.and_eq_true] at h
      obtain ⟨h1, h2⟩ := h
      unfold processChunks
      split
      next hexc =>
        rw [ih h2 (acc ++ (processChunkResult r).1)]
        simp only [List.map_cons, List.flatten_cons, chunkRecords, List.append_assoc]
      next e hexc =>
        simp only [pendingCaught, hexc] at h1
        rw [if_pos h1]
        rw [ih h2 (acc ++ (processChunkResult r).1)]
        simp only [List.map_cons, List.flatten_cons, chunkRecords, List.append_assoc]

/-- A flat map that skips the elements satisfying `p` is the flat map over
the filtered list. -/
theorem flatMap_skip_eq_filter {β γ : Type} (p : β → Prop) [DecidablePred p]
    (g : β → List γ) (l : List β) :
    (l.flatMap (fun x => if p x then [] else g x)) =
      (l.filter (fun x => decide ¬ p x)).flatMap g := by
  induction l with
  | nil => rfl
  | cons a t ih => by_cases h : p a <;> simp [h, ih]

/-- Running a list of successful stages counts all of them. -/
theorem runStages_all_ok {E : Type} (l : List (Except E Unit))
    (h : ∀ x ∈ l, x = .ok ()) (k : ℕ) :
    runStages k l = .ok (k + l.length) := by
  induction l generalizing k with
  | nil => rfl
  | cons a t ih =>
      rw [h a (by simp)]
      simp only [runStages]
      rw [ih (fun y hy => h y (by simp [hy])) (k + 1)]
      congr 1
      simp
      omega

/-- Running stages stops at the first failing one, counting the stages
entered. -/
theorem runStages_first_error {E : Type} (a : List (Except E Unit)) (e : E)
    (b : List (Except E Unit)) (h : ∀ x ∈ a, x = .ok ()) (k : ℕ) :
    runStages k (a ++ .error e :: b) = .error (e, k + a.length + 1) := by
  induction a generalizing k with
  | nil => rfl
  | cons x t ih =>
      rw [h x (by simp)]
      simp only [List.cons_append, runStages, List.append_eq]
      rw [ih (fun y hy => h y (by simp [hy])) (k + 1)]
      congr 2
      simp
      omega

/-- A vertical geometry is never horizontal. -/
theorem is_vertical_not_horizontal (vi : VideoInfo) (h : vi.is_vertical = true) :
    vi.is_horizontal = false := by
  simp only [VideoInfo.is_vertical, decide_eq_true_eq] at h
  simp only [VideoInfo.is_horizontal, decide_eq_false_iff_not]
  exact not_lt_of_gt h

/-! ## Claim theorems -/

/-- C1, amended: when every chunk's pending exception is of a caught class
(JSON decode or value error) and at least one record is recovered, the
extractor does not raise and returns, in chunk order, the concatenation of
each chunk's recovered records; a chunk whose response fails to JSON-parse
contributes zero records. (As originally stated the claim is refuted by
`c1_counterexample`: a chunk whose projection raises midway keeps the
records appended before the raising element, so it need not contribute zero
records.) -/
theorem c1_chunk_isolation (responses : List (Except PyExc JVal))
    (hcaught : responses.all pendingCaught = true)
    (hne : (responses.map chunkRecords).flatten ≠ []) :
    process_transcript responses = .ok ((responses.map chunkRecords).flatten) ∧
    ∀ e : PyExc, chunkRecords (.error e) = [] := by
  refine ⟨?_, fun e => rfl⟩
  rw [process_transcript, processChunks_all_caught responses hcaught]
  simp [List.isEmpty_iff, hne]

/-- C1 counterexample: the second chunk's response is the valid JSON array
`[gooditem2, baditem]`; projecting `baditem` raises `ValueError`
(`float("x")`), so by the claim the chunk should contribute zero records and
the result should be the records of chunk 1 alone, `[segA]` — but the code
returns `[segA, segC]`, keeping the record appended before the raise. -/
theorem c1_counterexample :
    (processChunkResult (.ok (.jarr [gooditem2, baditem]))).2 = some PyExc.valueError ∧
    process_transcript [.ok (.jarr [gooditem]), .ok (.jarr [gooditem2, baditem])] =
      .ok [segA, segC] ∧
    chunkRecords (.ok (.jarr [gooditem])) = [segA] ∧
    ([segA, segC] : List Segment) ≠ [segA] := by
  refine ⟨rfl, rfl, rfl, by simp⟩

/-- C1 witness: three chunks, the middle one failing to JSON-parse,
contribute the records of chunks 1 and 3 in order without raising. -/
theorem c1_witness :
    process_transcript [.ok (.jarr [gooditem]), .error .jsonDecodeError,
      .ok (.jarr [gooditem2])] = .ok [segA, segC] :=
  ((c1_chunk_isolation
      [.ok (.jarr [gooditem]), .error .jsonDecodeError, .ok (.jarr [gooditem2])]
      (by rfl) (by exact List.cons_ne_nil _ _)).1).trans rfl

/-- C2, amended: when every chunk's pending exception is of a caught class
(JSON decode or value error), extraction raises the
`NoUsableRephrasesError` `ValueError` exactly when zero records are
recovered across all chunks, and returns the non-empty recovered sequence
otherwise. (As originally stated the claim is refuted by
`c2_counterexample`: an uncaught exception class — here `TypeError` from
iterating a JSON number — propagates even though a record was already
recovered from an earlier chunk.) -/
theorem c2_fail_iff_empty (responses : List (Except PyExc JVal))
    (hcaught : responses.all pendingCaught = true) :
    (process_transcript responses = .error .valueError ↔
      (responses.map chunkRecords).flatten = []) ∧
    ((responses.map chunkRecords).flatten ≠ [] →
      process_transcript responses = .ok ((responses.map chunkRecords).flatten)) := by
  rw [process_transcript, processChunks_all_caught responses hcaught]
  constructor
  · by_cases hj : (responses.map chunkRecords).flatten = [] <;> simp [hj]
  · intro hne; simp [List.isEmpty_iff, hne]

/-- C2 counterexample: chunk 1 recovers one record, but chunk 2's response
parses to the JSON number `5`, whose iteration raises an uncaught
`TypeError` — extraction raises instead of returning the recovered
non-empty sequence, and the raised error is not the
`NoUsableRephrasesError` `ValueError`. -/
theorem c2_counterexample :
    chunkRecords (.ok (.jarr [gooditem])) = [segA] ∧
    process_transcript [.ok (.jarr [gooditem]), .ok (.jnum 5)] = .error .typeError ∧
    PyExc.typeError ≠ PyExc.valueError := by
  refine ⟨rfl, rfl, by decide⟩

/-- C2 witness: a run in which the only chunks fail to JSON-parse or parse
to an empty array recovers zero records and raises the
`NoUsableRephrasesError` `ValueError`. -/
theorem c2_witness :
    process_transcript [.error .jsonDecodeError, .ok (.jarr [])] = .error .valueError :=
  (c2_fail_iff_empty [.error .jsonDecodeError, .ok (.jarr [])] (by rfl)).1.mpr rfl

/-- C3: the recovery parser strips whitespace, removes fence lines from a
fenced body, and parses exactly the substring from the first `[` to the
last `]`; consequently a fenced response and a prose-wrapped response around
the same JSON array body preprocess to exactly that body and hand the same
text to the JSON parser, yielding identical records for every parser
`loads`. -/
theorem c3_response_recovery (loads : List Char → Except PyExc JVal)
    (t u p s info : List Char) (hb : '[' :: t = u ++ [']'])
    (hp : ∀ c ∈ p, c ≠ '[') (hs : ∀ c ∈ s, c ≠ ']')
    (hinfo : ∀ c ∈ info, c ≠ '\n')
    (hfence : fenceMarker.isPrefixOf (stripL (p ++ ('[' :: t) ++ s)) = false) :
    preprocessResponse (p ++ ('[' :: t) ++ s) = '[' :: t ∧
    preprocessResponse (fenceMarker ++ info ++ '\n' :: ('[' :: t) ++ '\n' :: fenceMarker) =
      '[' :: t ∧
    parse_response loads (String.mk (p ++ ('[' :: t) ++ s)) = loads ('[' :: t) ∧
    parse_response loads
        (String.mk (fenceMarker ++ info ++ '\n' :: ('[' :: t) ++ '\n' :: fenceMarker)) =
      loads ('[' :: t) := by
  have h1 := preprocessResponse_wrapped p t u s hb hp hs hfence
  have h2 := preprocessResponse_fenced t u info hb hinfo
  refine ⟨h1, h2, ?_, ?_⟩
  · unfold parse_response
    rw [show (String.mk (p ++ ('[' :: t) ++ s)).data = p ++ ('[' :: t) ++ s from rfl, h1]
  · unfold parse_response
    rw [show (String.mk (fenceMarker ++ info ++ '\n' :: ('[' :: t) ++ '\n' :: fenceMarker)).data =
        fenceMarker ++ info ++ '\n' :: ('[' :: t) ++ '\n' :: fenceMarker from rfl, h2]

/-- C3 witness: the prose-wrapped response `Here you go: [1] Hope that
helps!` and the fenced response parse to the same result on the body
`[1]`. -/
theorem c3_witness :
    parse_response (fun l => Except.ok (JVal.jstr (String.mk l)))
        (String.mk ("Here you go: ".data ++ ('[' :: "1]".data) ++ " Hope that helps!".data)) =
      Except.ok (JVal.jstr (String.mk ('[' :: "1]".data))) ∧
    parse_response (fun l => Except.ok (JVal.jstr (String.mk l)))
        (String.mk (fenceMarker ++ "json".data ++ '\n' :: ('[' :: "1]".data) ++
          '\n' :: fenceMarker)) =
      Except.ok (JVal.jstr (String.mk ('[' :: "1]".data))) := by
  have h := c3_response_recovery (fun l => Except.ok (JVal.jstr (String.mk l)))
    ("1]".data) ("[1".data) ("Here you go: ".data) (" Hope that helps!".data) ("json".data)
    rfl (by decide) (by decide) (by decide) (by rfl)
  exact ⟨h.2.2.1, h.2.2.2⟩

/-- C4: a segment of `N` whitespace tokens with millisecond offsets
`[startMs, endMs]` gives token `i` the span
`[start + i·(end − start)/N, start + (i+1)·(end − start)/N]` in seconds,
where `start = startMs/1000` and `end = endMs/1000`; in particular a 4-token
segment spanning `[0, 2]` seconds yields 4 words of half a second each, with
word index 1 spanning `[0.5, 1]`. -/
theorem c4_uniform_interpolation :
    (∀ (text : List Char) (startMs endMs : ℚ) (i : ℕ) (tok : List Char),
      (splitWs text)[i]? = some tok →
      (interpolateWords text startMs endMs)[i]? = some
        { text := tok
          start := startMs / 1000 +
            (i : ℚ) * (endMs / 1000 - startMs / 1000) / ((splitWs text).length : ℚ)
          stop := startMs / 1000 +
            ((i : ℚ) + 1) * (endMs / 1000 - startMs / 1000) / ((splitWs text).length : ℚ) }) ∧
    (interpolateWords ("a b c d".data) 0 2000)[1]? =
      some { text := "b".data, start := 1/2, stop := 1 } ∧
    (interpolateWords ("a b c d".data) 0 2000).length = 4 := by
  have main : ∀ (text : List Char) (startMs endMs : ℚ) (i : ℕ) (tok : List Char),
      (splitWs text)[i]? = some tok →
      (interpolateWords text startMs endMs)[i]? = some
        { text := tok
          start := startMs / 1000 +
            (i : ℚ) * (endMs / 1000 - startMs / 1000) / ((splitWs text).length : ℚ)
          stop := startMs / 1000 +
            ((i : ℚ) + 1) * (endMs / 1000 - startMs / 1000) / ((splitWs text).length : ℚ) } := by
    intro text startMs endMs i tok htok
    obtain ⟨hlen, -⟩ := List.getElem?_eq_some_iff.mp htok
    have hNz : ((splitWs text).length : ℚ) ≠ 0 := by
      exact_mod_cast Nat.pos_iff_ne_zero.mp (Nat.lt_of_le_of_lt (Nat.zero_le i) hlen)
    have hempty : ¬ ((splitWs text).isEmpty = true) := by
      rw [List.isEmpty_iff]
      intro hnil
      rw [hnil] at hlen
      simp at hlen
    simp only [interpolateWords]
    rw [if_neg hempty, List.getElem?_map, List.getElem?_enum, htok]
    simp only [Option.map_some']
    congr 1
    have h1 : (startMs + (i : ℚ) * ((endMs - startMs) / ((splitWs text).length : ℚ))) / 1000 =
        startMs / 1000 + (i : ℚ) * (endMs / 1000 - startMs / 1000) /
          ((splitWs text).length : ℚ) := by
      field_simp
      ring
    have h2 : (startMs + ((i : ℚ) + 1) * ((endMs - startMs) / ((splitWs text).length : ℚ))) /
        1000 =
        startMs / 1000 + ((i : ℚ) + 1) * (endMs / 1000 - startMs / 1000) /
          ((splitWs text).length : ℚ) := by
      field_simp
      ring
    rw [← h1, ← h2]
  refine ⟨main, ?_, rfl⟩
  have h := main ("a b c d".data) 0 2000 1 ("b".data) rfl
  rw [h]
  have hlen4 : ((splitWs ("a b c d".data)).length : ℚ) = 4 := by
    have hsw : splitWs ("a b c d".data) = [['a'], ['b'], ['c'], ['d']] := rfl
    rw [hsw]
    norm_num
  rw [hlen4]
  norm_num

/-- C4 witness: the interpolation applied to the concrete 4-token segment
`"a b c d"` spanning 0–2000 ms places token 1 at the stated uniform span. -/
theorem c4_witness :
    (splitWs ("a b c d".data))[1]? = some ("b".data) ∧
    (interpolateWords ("a b c d".data) 0 2000)[1]? = some
      { text := "b".data
        start := 0 / 1000 +
          ((1 : ℕ) : ℚ) * (2000 / 1000 - 0 / 1000) / ((splitWs ("a b c d".data)).length : ℚ)
        stop := 0 / 1000 +
          (((1 : ℕ) : ℚ) + 1) * (2000 / 1000 - 0 / 1000) /
            ((splitWs ("a b c d".data)).length : ℚ) } :=
  ⟨rfl, c4_uniform_interpolation.1 ("a b c d".data) 0 2000 1 ("b".data) rfl⟩

/-- C5: the clip plan skips exactly the records with `start ≤ 0 ∧ end ≤ 0`;
each remaining record at input index `i` emits, in input order, a
cut-original instruction with its timecodes immediately followed by a
render-reaction instruction with its antonym and the `i`-th synthesized
audio reference, so the plan's length is twice the number of valid
records. -/
theorem c5_clip_plan {α : Type} (segs : List Segment) (audioRefs : ℕ → α) (geo : VideoInfo) :
    buildPlan segs audioRefs geo =
      (segs.enum.filter (fun p => decide ¬ (p.2.start ≤ 0 ∧ p.2.stop ≤ 0))).flatMap
        (fun p => [ClipInstruction.cutOriginal p.2.start p.2.stop,
                   ClipInstruction.renderReaction p.2.antonym (audioRefs p.1) geo]) ∧
    (buildPlan segs audioRefs geo).length =
      2 * (segs.filter (fun s => decide ¬ (s.start ≤ 0 ∧ s.stop ≤ 0))).length := by
  have h1 : buildPlan segs audioRefs geo =
      (segs.enum.filter (fun p => decide ¬ (p.2.start ≤ 0 ∧ p.2.stop ≤ 0))).flatMap
        (fun p => [ClipInstruction.cutOriginal p.2.start p.2.stop,
                   ClipInstruction.renderReaction p.2.antonym (audioRefs p.1) geo]) := by
    rw [buildPlan]
    exact flatMap_skip_eq_filter (fun q => q.2.start ≤ 0 ∧ q.2.stop ≤ 0)
      (fun q => [ClipInstruction.cutOriginal q.2.start q.2.stop,
                 ClipInstruction.renderReaction q.2.antonym (audioRefs q.1) geo]) segs.enum
  refine ⟨h1, ?_⟩
  rw [h1, List.length_flatMap]
  have hsum : ∀ (L : List (ℕ × Segment)),
      (List.map (List.length ∘ (fun q : ℕ × Segment =>
        [ClipInstruction.cutOriginal q.2.start q.2.stop,
         ClipInstruction.renderReaction q.2.antonym (audioRefs q.1) geo])) L).sum =
        2 * L.length := by
    intro L
    induction L with
    | nil => rfl
    | cons a t ih =>
        simp only [List.map_cons, List.sum_cons, ih, List.length_cons]
        simp [Function.comp]
        ring
  rw [hsum]
  congr 1
  have hfm := List.filter_map (Prod.snd (α := ℕ) (β := Segment)) segs.enum
      (p := fun s => decide ¬ (s.start ≤ 0 ∧ s.stop ≤ 0))
  rw [List.enum_map_snd] at hfm
  have hlen := congrArg List.length hfm
  rw [List.length_map] at hlen
  rw [hlen]
  rfl

/-- C6: when the source geometry is horizontal the still image is scaled so
its height equals the target height and is horizontally padded, centred, to
the target width (pillarbox); when vertical it is scaled so its width equals
the target width and is vertically padded, centred, to the target height
(letterbox); in both cases the padded canvas has exactly the source video's
pixel dimensions. -/
theorem c6_orientation_fit (vi : VideoInfo) (img : ImageDim) :
    (vi.is_horizontal = true →
      reactionFitMode vi = .pillarbox ∧
      (applyScale .pillarbox vi img).h = (vi.height : ℚ) ∧
      applyPad .pillarbox vi (applyScale .pillarbox vi img) =
        { outW := (vi.width : ℚ), outH := (vi.height : ℚ)
          offX := ((vi.width : ℚ) - (applyScale .pillarbox vi img).w) / 2, offY := 0 }) ∧
    (vi.is_vertical = true →
      reactionFitMode vi = .letterbox ∧
      (applyScale .letterbox vi img).w = (vi.width : ℚ) ∧
      applyPad .letterbox vi (applyScale .letterbox vi img) =
        { outW := (vi.width : ℚ), outH := (vi.height : ℚ)
          offX := 0, offY := ((vi.height : ℚ) - (applyScale .letterbox vi img).h) / 2 }) ∧
    (applyPad (reactionFitMode vi) vi (applyScale (reactionFitMode vi) vi img)).outW =
      (vi.width : ℚ) ∧
    (applyPad (reactionFitMode vi) vi (applyScale (reactionFitMode vi) vi img)).outH =
      (vi.height : ℚ) := by
  refine ⟨?_, ?_, ?_, ?_⟩
  · intro h
    refine ⟨?_, rfl, rfl⟩
    simp only [reactionFitMode, h, if_true]
  · intro h
    refine ⟨?_, rfl, rfl⟩
    simp only [reactionFitMode, is_vertical_not_horizontal vi h,
      Bool.false_eq_true, if_false]
  · cases reactionFitMode vi <;> rfl
  · cases reactionFitMode vi <;> rfl

/-- C6 witness: a 1920×1080 source selects pillarbox and scales a square
image to height 1080; a 1080×1920 source selects letterbox and scales it to
width 1080. -/
theorem c6_witness :
    reactionFitMode { width := 1920, height := 1080, duration := 0, fps := 30 } =
      FitMode.pillarbox ∧
    (applyScale .pillarbox { width := 1920, height := 1080, duration := 0, fps := 30 }
      { w := 1000, h := 1000 }).h = ((1080 : ℤ) : ℚ) ∧
    reactionFitMode { width := 1080, height := 1920, duration := 0, fps := 30 } =
      FitMode.letterbox ∧
    (applyScale .letterbox { width := 1080, height := 1920, duration := 0, fps := 30 }
      { w := 1000, h := 1000 }).w = ((1080 : ℤ) : ℚ) := by
  have hh := (c6_orientation_fit
    { width := 1920, height := 1080, duration := 0, fps := 30 } { w := 1000, h := 1000 }).1
    (by decide)
  have hv := (c6_orientation_fit
    { width := 1080, height := 1920, duration := 0, fps := 30 } { w := 1000, h := 1000 }).2.1
    (by decide)
  exact ⟨hh.1, hh.2.1, hv.1, hv.2.1⟩

/-- C7: any stage after the provider health check that raises aborts the run
at that stage (no further stage executes), deletes the temporary artifacts
unless retention was requested, and propagates the error; the fully
successful run also cleans up unless retention was requested. -/
theorem c7_failfast_cleanup {E : Type} (keepTemp : Bool) :
    (∀ (a b post : List (Except E Unit)) (e : E), (∀ x ∈ a, x = .ok ()) →
      pipeline_run (a ++ .error e :: b) post false keepTemp =
        { result := .error e, stagesRun := a.length + 1, cleaned := !keepTemp }) ∧
    (∀ (pre c d : List (Except E Unit)) (e : E),
      (∀ x ∈ pre, x = .ok ()) → (∀ x ∈ c, x = .ok ()) →
      pipeline_run pre (c ++ .error e :: d) false keepTemp =
        { result := .error e, stagesRun := pre.length + (c.length + 1),
          cleaned := !keepTemp }) ∧
    (∀ (pre post : List (Except E Unit)),
      (∀ x ∈ pre, x = .ok ()) → (∀ x ∈ post, x = .ok ()) →
      pipeline_run pre post false keepTemp =
        { result := .ok true, stagesRun := pre.length + post.length,
          cleaned := !keepTemp }) := by
  refine ⟨?_, ?_, ?_⟩
  · intro a b post e ha
    simp only [pipeline_run, runStages_first_error a e b ha 0]
    congr 1
    omega
  · intro pre c d e hpre hc
    simp only [pipeline_run, runStages_all_ok pre hpre 0, runStages_first_error c e d hc 0]
    simp only [Bool.false_eq_true, if_false]
    congr 1
    omega
  · intro pre post hpre hpost
    simp only [pipeline_run, runStages_all_ok pre hpre 0, runStages_all_ok post hpost 0]
    simp only [Bool.false_eq_true, if_false]
    congr 1
    omega

/-- C7 witness: a failure at the second stage aborts with that error after
two stages and cleans up; a fully successful run with retention requested
keeps the temporary directory. -/
theorem c7_witness :
    pipeline_run (E := PyExc) [.ok (), .error .typeError, .ok ()] [.ok ()] false false =
      { result := .error .typeError, stagesRun := 2, cleaned := true } ∧
    pipeline_run (E := PyExc) [.ok ()] [.ok (), .ok ()] false true =
      { result := .ok true, stagesRun := 3, cleaned := false } := by
  constructor
  · exact (c7_failfast_cleanup (E := PyExc) false).1
      [Except.ok ()] [Except.ok ()] [Except.ok ()] PyExc.typeError (by simp)
  · exact (c7_failfast_cleanup (E := PyExc) true).2.2
      [Except.ok ()] [Except.ok (), Except.ok ()] (by simp) (by simp)

/-- C8: projection of a parsed element skips it exactly when its `start` or
`end` is absent or the empty string (the `""` default makes both cases the
same test), and an element carrying numeric `start` and `end` equal to `0`
is retained with those values, never substituted. -/
theorem c8_missing_timing_skipped :
    (∀ fields : List (String × JVal),
      projectItem (.jobj fields) = .ok none ↔
        (isEmptyStr (jobjGet fields "start" (.jstr "")) = true ∨
         isEmptyStr (jobjGet fields "end" (.jstr "")) = true)) ∧
    projectItem (.jobj [("original", .jstr "z"), ("antonym", .jstr "w"),
        ("start", .jnum 0), ("end", .jnum 0)]) =
      .ok (some ⟨.jstr "z", .jstr "w", 0, 0⟩) := by
  refine ⟨?_, rfl⟩
  intro fields
  constructor
  · intro h
    by_contra hq
    simp only [projectItem] at h
    rw [if_neg hq] at h
    cases hs : pyFloat (jobjGet fields "start" (.jstr "")) with
    | error e => rw [hs] at h; simp at h
    | ok sv =>
        cases he : pyFloat (jobjGet fields "end" (.jstr "")) with
        | error e => rw [hs, he] at h; simp at h
        | ok ev => rw [hs, he] at h; simp at h
  · intro hq
    simp only [projectItem]
    rw [if_pos hq]

/-- C9: if the duration probe's stripped output is empty, building the
reaction clip raises (no fallback duration); a composite spec is only
produced when a duration was parsed, and its output duration equals that
parsed audio duration. -/
theorem c9_duration_required (probeOut : String) (vi : VideoInfo) :
    ((stripL probeOut.data).isEmpty = true →
      create_reaction_clip probeOut vi = .error .valueError) ∧
    (∀ spec : ReactionClipSpec, create_reaction_clip probeOut vi = .ok spec →
      (stripL probeOut.data).isEmpty = false ∧
      parseFloat (String.mk (stripL probeOut.data)) = some spec.durationLimit) := by
  constructor
  · intro h
    simp only [create_reaction_clip]
    rw [if_pos h]
  · intro spec h
    simp only [create_reaction_clip] at h
    cases he : (stripL probeOut.data).isEmpty with
    | true => rw [if_pos he] at h; simp at h
    | false =>
        rw [if_neg (by simp [he])] at h
        refine ⟨rfl, ?_⟩
        cases hp : parseFloat (String.mk (stripL probeOut.data)) with
        | none => rw [hp] at h; simp at h
        | some d =>
            rw [hp] at h
            simp only [Except.ok.injEq] at h
            rw [← h]

/-- C9 witness: an empty probe output fails the clip, and the probe output
`" 2.5 "` produces a composite whose duration limit is the parsed value. -/
theorem c9_witness :
    create_reaction_clip "" { width := 1920, height := 1080, duration := 0, fps := 30 } =
      .error .valueError ∧
    parseFloat (String.mk (stripL (" 2.5 ").data)) =
      some (ReactionClipSpec.durationLimit
        { durationLimit := (1 : ℚ) * ((2 : ℚ) + (5 : ℚ) / (10 : ℚ) ^ (1 : ℕ))
          fitMode := .pillarbox, fontsize := 108 }) := by
  constructor
  · exact (c9_duration_required "" _).1 rfl
  · exact ((c9_duration_required " 2.5 "
      { width := 1920, height := 1080, duration := 0, fps := 30 }).2
      { durationLimit := (1 : ℚ) * ((2 : ℚ) + (5 : ℚ) / (10 : ℚ) ^ (1 : ℕ))
        fitMode := .pillarbox, fontsize := 108 } rfl).2

/-- C10: a square source geometry is neither horizontal nor vertical; the
renderer's branch on `is_horizontal` therefore takes the letterbox path, so
the image is scaled to the target width with no horizontal offset, and every
geometry is rendered by exactly one of the two fit strategies. -/
theorem c10_square_letterbox (vi : VideoInfo) (img : ImageDim)
    (hsq : vi.width = vi.height) :
    vi.is_horizontal = false ∧ vi.is_vertical = false ∧
    reactionFitMode vi = .letterbox ∧
    (applyScale (reactionFitMode vi) vi img).w = (vi.width : ℚ) ∧
    (applyPad (reactionFitMode vi) vi (applyScale (reactionFitMode vi) vi img)).offX = 0 ∧
    (reactionFitMode vi = .pillarbox ∨ reactionFitMode vi = .letterbox) := by
  have hhor : vi.is_horizontal = false := by
    simp only [VideoInfo.is_horizontal, decide_eq_false_iff_not, hsq]
    exact lt_irrefl _
  have hver : vi.is_vertical = false := by
    simp only [VideoInfo.is_vertical, decide_eq_false_iff_not, hsq]
    exact lt_irrefl _
  have hmode : reactionFitMode vi = .letterbox := by
    simp only [reactionFitMode, hhor, Bool.false_eq_true, if_false]
  refine ⟨hhor, hver, hmode, ?_, ?_, Or.inr hmode⟩
  · rw [hmode]; rfl
  · rw [hmode]; rfl

/-- C10 witness: the square geometry 1080×1080 satisfies neither orientation
predicate and is rendered with the letterbox strategy. -/
theorem c10_witness :
    VideoInfo.is_horizontal { width := 1080, height := 1080, duration := 0, fps := 30 } =
      false ∧
    VideoInfo.is_vertical { width := 1080, height := 1080, duration := 0, fps := 30 } =
      false ∧
    reactionFitMode { width := 1080, height := 1080, duration := 0, fps := 30 } =
      FitMode.letterbox := by
  have h := c10_square_letterbox
    { width := 1080, height := 1080, duration := 0, fps := 30 } { w := 500, h := 250 } rfl
  exact ⟨h.1, h.2.1, h.2.2.1⟩

end NetBlin
